import Mathlib

/-!
Shallow embedding of the RC keytable engine (`utils/keytable/keytable.c`)
of v4l-utils: protocol catalog, protocol-name parsing/formatting, sysfs
attribute classification, protocol writing, keymap merging with raw-entry
virtualization, BPF decoder request deduplication, uevent parsing, device
lookup and the evdev keycode programmer.

Strings from the C source are modelled as Lean `String`s / `List Char`;
machine integers as `Nat`/`Int` with explicit wrapping where the C width
matters; file-system and ioctl effects as explicit inputs / outputs.
-/

namespace Keytable

/-- C `tolower` restricted to ASCII, which is the only alphabet the
protocol tables and sysfs contents use. -/
def lowerChar (c : Char) : Char :=
  if 65 ≤ c.toNat ∧ c.toNat ≤ 90 then Char.ofNat (c.toNat + 32) else c

/-- Case-insensitive character comparison, as `tolower(*a) != tolower(*b)`. -/
def lowerEq (c d : Char) : Bool :=
  lowerChar c = lowerChar d

/-- The separator characters `protocol_like` skips: `-` and `_`. -/
def isSep (c : Char) : Bool :=
  c = '-' ∨ c = '_'

/-- `protocol_like(a, b)` from keytable.c: walks both strings, skipping at
most one `-`/`_` per string per loop iteration, then compares the current
characters case-insensitively; accepts when both strings are exhausted
together.  The `[], []` result in the doubly-skipped branch corresponds to
the C loop exiting right after both strings end in a lone separator (never
reached when `b` is a catalog name, which never ends in a separator). -/
def protocol_like : List Char → List Char → Bool
  | [], [] => true
  | [], _ :: _ => false
  | _ :: _, [] => false
  | x :: xs, y :: ys =>
    if isSep x then
      if isSep y then
        match xs, ys with
        | [], [] => true
        | [], _ :: _ => false
        | _ :: _, [] => false
        | p :: ps, q :: qs => lowerEq p q && protocol_like ps qs
      else
        match xs with
        | [] => false
        | p :: ps => lowerEq p y && protocol_like ps ys
    else
      if isSep y then
        match ys with
        | [] => false
        | q :: qs => lowerEq x q && protocol_like xs qs
      else
        lowerEq x y && protocol_like xs ys

/-- Bit values of `enum sysfs_protocols`. -/
def SYSFS_UNKNOWN : Nat := 1 <<< 0
def SYSFS_OTHER : Nat := 1 <<< 1
def SYSFS_LIRC : Nat := 1 <<< 2
def SYSFS_RC5 : Nat := 1 <<< 3
def SYSFS_RC5_SZ : Nat := 1 <<< 4
def SYSFS_JVC : Nat := 1 <<< 5
def SYSFS_SONY : Nat := 1 <<< 6
def SYSFS_NEC : Nat := 1 <<< 7
def SYSFS_SANYO : Nat := 1 <<< 8
def SYSFS_MCE_KBD : Nat := 1 <<< 9
def SYSFS_RC6 : Nat := 1 <<< 10
def SYSFS_SHARP : Nat := 1 <<< 11
def SYSFS_XMP : Nat := 1 <<< 12
def SYSFS_CEC : Nat := 1 <<< 13
def SYSFS_IMON : Nat := 1 <<< 14
def SYSFS_RCMM : Nat := 1 <<< 15
def SYSFS_XBOX_DVD : Nat := 1 <<< 16
def SYSFS_INVALID : Nat := 0

/-- `~0` assigned to the 32-bit protocol mask (the `"all"` case). -/
def SYSFS_ALL : Nat := 2 ^ 32 - 1

/-- One row of `protocol_map`. -/
structure ProtocolMapEntry where
  name : String
  sysfs1_name : Option String
  sysfs_protocol : Nat
deriving Repr, DecidableEq

/-- The protocol catalog `protocol_map` from keytable.c (terminating NULL
row omitted: the Lean list end plays its role). -/
def protocol_map : List ProtocolMapEntry := [
  ⟨"unknown", none, SYSFS_UNKNOWN⟩,
  ⟨"other", none, SYSFS_OTHER⟩,
  ⟨"lirc", none, SYSFS_LIRC⟩,
  ⟨"rc-5", some "/rc5_decoder", SYSFS_RC5⟩,
  ⟨"rc-5x", none, SYSFS_INVALID⟩,
  ⟨"rc-5-sz", none, SYSFS_RC5_SZ⟩,
  ⟨"jvc", some "/jvc_decoder", SYSFS_JVC⟩,
  ⟨"sony", some "/sony_decoder", SYSFS_SONY⟩,
  ⟨"sony12", none, SYSFS_INVALID⟩,
  ⟨"sony15", none, SYSFS_INVALID⟩,
  ⟨"sony20", none, SYSFS_INVALID⟩,
  ⟨"nec", some "/nec_decoder", SYSFS_NEC⟩,
  ⟨"sanyo", none, SYSFS_SANYO⟩,
  ⟨"mce_kbd", none, SYSFS_MCE_KBD⟩,
  ⟨"rc-6", some "/rc6_decoder", SYSFS_RC6⟩,
  ⟨"rc-6-0", none, SYSFS_INVALID⟩,
  ⟨"rc-6-6a-20", none, SYSFS_INVALID⟩,
  ⟨"rc-6-6a-24", none, SYSFS_INVALID⟩,
  ⟨"rc-6-6a-32", none, SYSFS_INVALID⟩,
  ⟨"rc-6-mce", none, SYSFS_INVALID⟩,
  ⟨"sharp", none, SYSFS_SHARP⟩,
  ⟨"xmp", some "/xmp_decoder", SYSFS_XMP⟩,
  ⟨"cec", none, SYSFS_CEC⟩,
  ⟨"imon", none, SYSFS_IMON⟩,
  ⟨"rc-mm", none, SYSFS_RCMM⟩,
  ⟨"xbox-dvd", none, SYSFS_XBOX_DVD⟩]

/-- `strcasecmp(a, b) == 0`: ASCII case-insensitive string equality. -/
def strcaseEq (a b : String) : Bool :=
  a.data.map lowerChar = b.data.map lowerChar

/-- Scan of `protocol_map` inside `parse_sysfs_protocol`: first row whose
name is `protocol_like` the argument wins. -/
def parse_scan (name : List Char) : List ProtocolMapEntry → Nat
  | [] => SYSFS_INVALID
  | pme :: rest =>
    if protocol_like name pme.name.data then pme.sysfs_protocol
    else parse_scan name rest

/-- `parse_sysfs_protocol(name, all_allowed)` from keytable.c.  The C
NULL-name guard is not representable (Lean strings are never NULL). -/
def parse_sysfs_protocol (name : String) (all_allowed : Bool) : Nat :=
  if all_allowed && strcaseEq name "all" then SYSFS_ALL
  else parse_scan name.data protocol_map

/-- 32-bit `protocols &= ~pme->sysfs_protocol`: the complement is taken
within the 32-bit `unsigned` width of the C enum, so `~b` is
`SYSFS_ALL ^^^ b`. -/
def clearBits (p b : Nat) : Nat := p &&& (SYSFS_ALL ^^^ b)

/-- The loop of `write_sysfs_protocols(protocols, fp, fmt)`: emits
`fmt(name)` for every catalog row whose bit is set in the working mask,
clearing consumed bits as it goes.  The emitted text is returned instead
of written to `fp`; `fmt` stands for the printf pattern applied to the
name. -/
def write_sysfs_scan (fmt : String → String) : List ProtocolMapEntry → Nat → String
  | [], _ => ""
  | pme :: rest, protocols =>
    if protocols &&& pme.sysfs_protocol = 0 then
      write_sysfs_scan fmt rest protocols
    else
      fmt pme.name ++ write_sysfs_scan fmt rest (clearBits protocols pme.sysfs_protocol)

/-- `write_sysfs_protocols` from keytable.c, as the text it prints. -/
def write_sysfs_protocols (protocols : Nat) (fmt : String → String) : String :=
  write_sysfs_scan fmt protocol_map protocols

/-- Specification-side reading of the formatter: the canonical names of
the catalog rows (in catalog order) whose non-zero bit is set in the
mask. -/
def namesOfMask (protocols : Nat) : List String :=
  (protocol_map.filter (fun pme => decide (protocols &&& pme.sysfs_protocol ≠ 0))).map
    (fun pme => pme.name)

/-! ## BPF decoder registry (`struct bpf_protocol`, `compare_parameters`,
`add_bpf_protocol`, `load_bpf_for_unsupported`) -/

/-- One `(name, value)` decoder parameter (`struct protocol_param`);
`value` is a C `long`. -/
structure ProtocolParam where
  name : String
  value : Int
deriving Repr, DecidableEq

/-- A requested BPF decoder (`struct bpf_protocol`): protocol name plus
parameter list. -/
structure BpfProtocol where
  name : String
  param : List ProtocolParam
deriving Repr, DecidableEq

/-- `compare_parameters(a, b)` from keytable.c: every parameter of `a`
occurs in `b` with the same name and value (one-sided containment). -/
def compare_parameters (a b : List ProtocolParam) : Bool :=
  a.all fun p => b.any fun q => p.name = q.name ∧ p.value = q.value

/-- The scan inside `add_bpf_protocol`: is some already-registered request
a same-name, mutually-contained-parameter duplicate of `new`? -/
def bpf_duplicate (new : BpfProtocol) (l : List BpfProtocol) : Bool :=
  l.any fun a =>
    a.name = new.name &&
    compare_parameters a.param new.param &&
    compare_parameters new.param a.param

/-- `add_bpf_protocol(new)` from keytable.c, acting on the global
`bpf_protocol` list passed explicitly: drop the request if a duplicate is
already registered, otherwise push it at the front. -/
def add_bpf_protocol (new : BpfProtocol) (l : List BpfProtocol) : List BpfProtocol :=
  if bpf_duplicate new l then l else new :: l

/-- One step of the `load_bpf_for_unsupported` catalog scan, threading the
`(protocols, bpf_protocol)` state. -/
def load_bpf_step (supported : Nat) (st : Nat × List BpfProtocol)
    (pme : ProtocolMapEntry) : Nat × List BpfProtocol :=
  if pme.sysfs_protocol ≠ SYSFS_XBOX_DVD then st
  else if st.1 &&& pme.sysfs_protocol = 0 ∨ supported &&& pme.sysfs_protocol ≠ 0 then st
  else (clearBits st.1 pme.sysfs_protocol,
        add_bpf_protocol ⟨pme.name, []⟩ st.2)

/-- `load_bpf_for_unsupported(protocols, supported)` from keytable.c; the
global `bpf_protocol` list is threaded explicitly and returned next to the
narrowed mask. -/
def load_bpf_for_unsupported (protocols supported : Nat) (bpfs : List BpfProtocol) :
    Nat × List BpfProtocol :=
  protocol_map.foldl (load_bpf_step supported) (protocols, bpfs)

/-! ## Sysfs protocol reading (`v1_get_hw_protocols`,
`v1_get_sw_enabled_protocol`, `v2_get_protocols`) and device
classification (`get_attribs`) -/

/-- Single pass behind `strtok_spaces`: `acc` holds the reversed current
token. -/
def strtok_spaces_aux : List Char → List Char → List (List Char)
  | [], acc => if acc.isEmpty then [] else [acc.reverse]
  | c :: cs, acc =>
    if c = ' ' ∨ c = '\n' then
      if acc.isEmpty then strtok_spaces_aux cs []
      else acc.reverse :: strtok_spaces_aux cs []
    else strtok_spaces_aux cs (c :: acc)

/-- `strtok(buf, " \n")` repetition: the maximal non-empty runs of
characters other than space and newline. -/
def strtok_spaces (s : String) : List String :=
  (strtok_spaces_aux s.data []).map List.asString

/-- `v1_get_hw_protocols(name)` from keytable.c.  The argument is the
first line of the named sysfs file (`none` when the file cannot be opened
or read, which makes the function return the 0 mask).  Every token is
parsed against the catalog; unrecognized tokens count as `other`. -/
def v1_get_hw_protocols (firstLine : Option String) : Nat :=
  match firstLine with
  | none => 0
  | some line =>
    (strtok_spaces line).foldl
      (fun protocols p =>
        let protocol := parse_sysfs_protocol p false
        protocols ||| (if protocol = SYSFS_INVALID then SYSFS_OTHER else protocol))
      0

/-- `v1_get_sw_enabled_protocol(dirname)` from keytable.c.  The argument
abstracts the `dirname/enabled` file as the `atoi` value of its first
whitespace token (`none` when the file is missing, unreadable or blank,
all of which make the C function return 0).  The result is 1 exactly when
that value is 1. -/
def v1_get_sw_enabled_protocol (enabledTok : Option Int) : Nat :=
  match enabledTok with
  | some v => if v = 1 then 1 else 0
  | none => 0

/-- One sysfs node of the rc device directory, with the file contents the
protocol-classification loop of `get_attribs` may read: `firstLine` is
the first line of the node itself (for `protocols` / `protocol` /
`supported_protocols`), `enabledTok` abstracts the node's `enabled`
subfile as in `v1_get_sw_enabled_protocol`. -/
structure SysfsNode where
  name : String
  firstLine : Option String
  enabledTok : Option Int
deriving Repr, DecidableEq

/-- `strstr(hay, needle) != NULL`: substring containment, checked as
"prefix of some suffix". -/
def strstr_contains (hay needle : String) : Bool :=
  hay.data.tails.any fun t => needle.data.isPrefixOf t

/-- `enum rc_type` from keytable.c. -/
inductive RcType | UNKNOWN_TYPE | SOFTWARE_DECODER | HARDWARE_DECODER
deriving Repr, DecidableEq

/-- `enum sysfs_ver` from keytable.c. -/
inductive SysfsVer | VERSION_1 | VERSION_2
deriving Repr, DecidableEq

/-- The protocol-relevant attributes of `struct rc_device`. -/
structure RcDevice where
  version : SysfsVer
  type : RcType
  supported : Nat
  current : Nat
deriving Repr, DecidableEq

/-- `v2_get_protocols(rc_dev, name)` from keytable.c: parse the one-line
`protocols` file; a `[...]`-wrapped token is enabled; every token is
supported; unrecognized tokens count as `other`.  `none` content models
an unreadable file (early return, device untouched). -/
def v2_get_protocols (dev : RcDevice) (firstLine : Option String) : RcDevice :=
  match firstLine with
  | none => dev
  | some line =>
    (strtok_spaces line).foldl
      (fun dev tok =>
        let enabled := tok.data.head? = some '['
        let p := if enabled then (tok.data.tail.dropLast).asString else tok
        let protocol := parse_sysfs_protocol p false
        let protocol := if protocol = SYSFS_INVALID then SYSFS_OTHER else protocol
        { dev with
          supported := dev.supported ||| protocol
          current := if enabled then dev.current ||| protocol else dev.current })
      dev

/-- The catalog scan in the final `else` of the `get_attribs` attribute
loop: the first row owning a `sysfs1_name` fragment contained in the node
path claims the node.  Translated exactly as written, including the slip
that ORs the enabled bit into `supported` (not `current`) a second
time. -/
def get_attribs_sw_scan (dev : RcDevice) (node : SysfsNode) :
    List ProtocolMapEntry → RcDevice
  | [] => dev
  | pme :: rest =>
    match pme.sysfs1_name with
    | none => get_attribs_sw_scan dev node rest
    | some frag =>
      if strstr_contains node.name frag then
        let dev := { dev with supported := dev.supported ||| pme.sysfs_protocol }
        if v1_get_sw_enabled_protocol node.enabledTok ≠ 0 then
          { dev with supported := dev.supported ||| pme.sysfs_protocol }
        else dev
      else get_attribs_sw_scan dev node rest

/-- One iteration of the attribute loop at the end of `get_attribs`
(`for (cur = attribs; ...)`), dispatching on the node name. -/
def get_attribs_step (dev : RcDevice) (node : SysfsNode) : RcDevice :=
  if strstr_contains node.name "/protocols" then
    v2_get_protocols { dev with version := .VERSION_2, type := .UNKNOWN_TYPE } node.firstLine
  else if strstr_contains node.name "/protocol" then
    { dev with
      version := .VERSION_1
      type := .HARDWARE_DECODER
      current := v1_get_hw_protocols node.firstLine }
  else if strstr_contains node.name "/supported_protocols" then
    { dev with
      version := .VERSION_1
      supported := v1_get_hw_protocols node.firstLine }
  else
    get_attribs_sw_scan dev node protocol_map

/-- The protocol-classification portion of `get_attribs` (keytable.c
lines 1374-1407): starting from the zeroed device with
`type = SOFTWARE_DECODER` (and `version` zero-initialized to
`VERSION_1` by the `memset`), fold the attribute loop over the device
directory's nodes.  The earlier part of `get_attribs` (input/event/lirc
uevent resolution) touches none of these fields. -/
def get_attribs_protocols (nodes : List SysfsNode) : RcDevice :=
  nodes.foldl get_attribs_step
    ⟨.VERSION_1, .SOFTWARE_DECODER, 0, 0⟩

/-! ## Protocol writing (`v1_set_hw_protocols`, `v1_set_sw_enabled_protocol`
loop, `v2_set_protocols`, `set_proto`) -/

/-- `v1_set_hw_protocols(rc_dev)` from keytable.c, as the text written to
the `protocol` node: space-separated names of the current mask plus a
newline. -/
def v1_set_hw_protocols (current : Nat) : String :=
  write_sysfs_protocols current (fun n => n ++ " ") ++ "\n"

/-- The software-decoder loop of `set_proto`: for every catalog row with
a v1 sysfs fragment whose bit is in the supported mask, one
`v1_set_sw_enabled_protocol` call writing `"1"` or `"0"` to the
fragment's `enabled` node according to the current mask. -/
def v1_set_sw_writes (supported current : Nat) : List (String × Bool) :=
  (protocol_map.filter fun pme =>
      pme.sysfs1_name.isSome && decide (supported &&& pme.sysfs_protocol ≠ 0)).map
    fun pme => (pme.sysfs1_name.getD "", decide (current &&& pme.sysfs_protocol ≠ 0))

/-- The `stat` permission test of `v2_set_protocols`: refuse when `stat`
succeeded (`mode` present) and no write bit is set
(`!(st.st_mode & 0222)`). -/
def v2_write_refused (mode : Option Nat) : Bool :=
  match mode with
  | some m => m &&& 0o222 = 0
  | none => false

/-- `v2_set_protocols(rc_dev)` from keytable.c.  `mode` is the `st_mode`
of the `protocols` node when `stat` succeeds; write permission absent
refuses the write with an error and nothing is written.  Otherwise the
node receives `"none\n"` followed by one `"+<name>\n"` line per set bit
(the open itself is modelled as succeeding). -/
def v2_set_protocols (current : Nat) (mode : Option Nat) : Option String :=
  if v2_write_refused mode then
    none
  else
    some ("none\n" ++ write_sysfs_protocols current (fun n => "+" ++ n ++ "\n"))

/-- What `set_proto` did to the kernel. -/
inductive SetProtoEffect where
  /-- V2 write refused (`protocols` node not writable); nothing written. -/
  | refused
  /-- V2 path: this text was written to the `protocols` node. -/
  | v2Wrote (contents : String)
  /-- V1 software path: these `(fragment, enabled)` writes were issued. -/
  | v1Sw (writes : List (String × Bool))
  /-- V1 hardware path: this text was written to the `protocol` node. -/
  | v1Hw (contents : String)
deriving Repr, DecidableEq

/-- `set_proto(rc_dev)` from keytable.c, returning the effect and the
device (whose `current` field the V1 path narrows in place). -/
def set_proto (dev : RcDevice) (protocolsMode : Option Nat) :
    SetProtoEffect × RcDevice :=
  if dev.version = .VERSION_2 then
    match v2_set_protocols dev.current protocolsMode with
    | none => (.refused, dev)
    | some s => (.v2Wrote s, dev)
  else
    let dev := { dev with current := dev.current &&& dev.supported }
    if dev.type = .SOFTWARE_DECODER then
      (.v1Sw (v1_set_sw_writes dev.supported dev.current), dev)
    else
      (.v1Hw (v1_set_hw_protocols dev.current), dev)

/-! ## Kernel keycode programmer (`add_keys`) -/

/-- One keycode-setting ioctl issued by `add_keys`: the legacy 32-bit
`EVIOCSKEYCODE` pair or the variable-length `EVIOCSKEYCODE_V2` record. -/
inductive KeyIoctl where
  | legacy (scancode : Nat) (keycode : Nat)
  | v2 (scancode : Nat) (keycode : Nat)
deriving Repr, DecidableEq

/-- `add_keys(fd)` from keytable.c over an explicit keytable (the global
list), as the sequence of ioctls issued plus the returned
`write_cnt`.  `codes[0] = ke->scancode` truncates to 32 bits; when that
changes the value the 64-bit `EVIOCSKEYCODE_V2` record is used instead.
A failing ioctl only prints an error, so every entry still contributes
its ioctl and its count. -/
def add_keys (keytable : List (Nat × Nat)) : List KeyIoctl × Nat :=
  (keytable.map fun ke =>
      let c0 := ke.1 % 2 ^ 32
      if c0 ≠ ke.1 then KeyIoctl.v2 ke.1 ke.2 else KeyIoctl.legacy c0 ke.2,
    keytable.length)

/-- The ioctl choice claimed by the specification (spec §4.5 `program`):
scancodes beyond 32 bits always take the indexed ioctl, and 32-bit
scancodes take the family selected by the detected evdev protocol
version (legacy below 0x10001, indexed otherwise).  Stated only to be
compared against `add_keys`. -/
def add_keys_claimed (version : Nat) (keytable : List (Nat × Nat)) : List KeyIoctl :=
  keytable.map fun ke =>
    if 2 ^ 32 ≤ ke.1 then KeyIoctl.v2 ke.1 ke.2
    else if version < 0x10001 then KeyIoctl.legacy ke.1 ke.2
    else KeyIoctl.v2 ke.1 ke.2

/-! ## uevent parsing (`read_sysfs_uevents`) -/

/-- Result of the two `strtok` calls of `read_sysfs_uevents` on one
`fgets` line. -/
inductive UeventLine where
  /-- `strtok(s, "=")` returned NULL (line entirely `=` characters):
  `continue`. -/
  | skip
  /-- `strtok(NULL, "\n")` returned NULL: "Error on uevent information",
  the whole parse is abandoned. -/
  | abort
  /-- A `(key, value)` pair is appended. -/
  | pair (key value : List Char)
deriving Repr, DecidableEq

/-- One iteration of the `read_sysfs_uevents` loop on one line (including
its trailing newline, as delivered by `fgets`), following C `strtok`:
the first call skips leading `=` delimiters and cuts the key at the next
`=`; the second call resumes there, skips leading newlines and cuts the
value at the next newline. -/
def uevent_line (l : List Char) : UeventLine :=
  let r1 := l.dropWhile fun c => c = '='
  if r1.isEmpty then .skip
  else
    let key := r1.takeWhile fun c => c ≠ '='
    let saved := (r1.dropWhile fun c => c ≠ '=').tail
    let r2 := saved.dropWhile fun c => c = '\n'
    if r2.isEmpty then .abort
    else .pair key (r2.takeWhile fun c => c ≠ '\n')

/-- The loop of `read_sysfs_uevents(dname)` over the uevent file's lines:
`none` models the NULL return (parse abandoned, nothing delivered),
`some l` the key/value list handed to the caller (the trailing
calloc'ed sentinel node is implicit in the list end). -/
def read_uevent_lines : List (List Char) → Option (List (List Char × List Char))
  | [] => some []
  | l :: ls =>
    match uevent_line l with
    | .skip => read_uevent_lines ls
    | .abort => none
    | .pair k v => (read_uevent_lines ls).map fun rest => (k, v) :: rest

/-- `read_sysfs_uevents` on a file given as its `fgets` lines. -/
def read_sysfs_uevents (lines : List String) : Option (List (List Char × List Char)) :=
  read_uevent_lines (lines.map String.data)

/-! ## Device lookup (`seek_sysfs_dir`, `find_device`) -/

/-- `seek_sysfs_dir(dname, node_name)` from keytable.c over an explicit
directory listing (the `readdir` results, in order): keeps entries whose
name starts with `node_name` (all entries when `node_name` is NULL),
returning `dname ++ entry` plus a trailing `/` when `node_name` was
given; an empty result is reported as NULL. -/
def seek_sysfs_dir (dname : String) (node_name : Option String)
    (entries : List String) : Option (List String) :=
  let names :=
    match node_name with
    | some nn => (entries.filter fun e => nn.data.isPrefixOf e.data).map
        fun e => dname ++ e ++ "/"
    | none => entries.map fun e => dname ++ e
  if names.isEmpty then none else some names

/-- `find_device(name)` from keytable.c over the `/sys/class/rc/`
listing: seek entries prefixed `rc`; with a NULL name the whole name
list is returned; with a name, the first entry whose trailing path
segment equals `name` is returned alone, NULL ("Not found device")
otherwise. -/
def find_device (name : Option String) (entries : List String) :
    Option (List String) :=
  let dname := "/sys/class/rc/"
  match seek_sysfs_dir dname (some "rc") entries with
  | none => none
  | some names =>
    match name with
    | none => some names
    | some nm =>
      match names.find? fun cur => cur.data.drop dname.length = (nm ++ "/").data with
      | some cur => some [cur]
      | none => none

/-! ## Keytable store (`add_keymap`) -/

/-- The parsed keymap structure consumed by `add_keymap` (one node of the
`struct keymap` list from keymap.h): a protocol name, decoder
parameters, `(scancode, keycode-string)` entries and raw keycode-string
entries. -/
structure Keymap where
  protocol : String
  param : List ProtocolParam
  scancode : List (Nat × String)
  raw : List String
deriving Repr, DecidableEq

/-- The mutable process state `add_keymap` touches: the desired-protocol
mask `ch_proto`, the BPF request list, the keytable and rawtable, and
the synthetic-scancode counter `raw_scancode`. -/
structure KeytableState where
  ch_proto : Nat
  bpf : List BpfProtocol
  keytable : List (Nat × Int)
  rawtable : List (Nat × String)
  raw_scancode : Nat
deriving Repr, DecidableEq

/-- The initial values of the keytable globals: empty tables and
`static int raw_scancode = 0`. -/
def initialKeytableState : KeytableState := ⟨0, [], [], [], 0⟩

/-- The scancode-entry loop of `add_keymap`: resolve the keycode string
(`parse_code`, then `strtol`, abstracted as `resolve`); unresolvable
entries are reported and skipped, resolved ones are pushed onto the
keytable. -/
def add_keymap_scancodes (resolve : String → Option Int)
    (entries : List (Nat × String)) (st : KeytableState) : KeytableState :=
  entries.foldl
    (fun st se =>
      match resolve se.2 with
      | none => st
      | some value => { st with keytable := (se.1, value) :: st.keytable })
    st

/-- The raw-entry loop of `add_keymap`: resolve the keycode string the
same way; a resolved entry takes the current `raw_scancode` as its
synthetic scancode, is pushed onto the keytable and (with the same
scancode) onto the rawtable, and the counter advances; an unresolvable
entry is reported and skipped. -/
def add_keymap_raws (resolve : String → Option Int)
    (entries : List String) (st : KeytableState) : KeytableState :=
  entries.foldl
    (fun st keycode =>
      match resolve keycode with
      | none => st
      | some value =>
        { st with
          keytable := (st.raw_scancode, value) :: st.keytable
          rawtable := (st.raw_scancode, keycode) :: st.rawtable
          raw_scancode := st.raw_scancode + 1 })
    st

/-- The per-keymap body of `add_keymap`: route the protocol name (catalog
hit extends `ch_proto`; a miss other than `"none"` becomes a BPF request
that steals the keymap's parameters), then process scancode entries and
raw entries. -/
def add_keymap_one (resolve : String → Option Int) (st : KeytableState)
    (map : Keymap) : KeytableState :=
  let protocol := parse_sysfs_protocol map.protocol false
  let st :=
    if protocol = SYSFS_INVALID then
      if map.protocol ≠ "none" then
        { st with bpf := add_bpf_protocol ⟨map.protocol, map.param⟩ st.bpf }
      else st
    else { st with ch_proto := st.ch_proto ||| protocol }
  add_keymap_raws resolve map.raw (add_keymap_scancodes resolve map.scancode st)

/-- `add_keymap(map, fname)` from keytable.c over the whole keymap list,
with the globals threaded as explicit state.  `resolve` stands for the
keycode resolution (`parse_code` over the external `key_events` table,
then `strtol` with its error check); `none` is an unrecognized keycode,
reported on stderr and skipped. -/
def add_keymap (resolve : String → Option Int) (maps : List Keymap)
    (st : KeytableState) : KeytableState :=
  maps.foldl (add_keymap_one resolve) st

example : parse_sysfs_protocol "rc-5" false = SYSFS_RC5 := by decide
example : parse_sysfs_protocol "RC_5" false = SYSFS_RC5 := by decide
example : parse_sysfs_protocol "rc5" false = SYSFS_RC5 := by decide
example : parse_sysfs_protocol "rc--5" false = SYSFS_INVALID := by decide
example : parse_sysfs_protocol "rc-5x" false = SYSFS_INVALID := by decide
example : parse_sysfs_protocol "all" true = SYSFS_ALL := by decide
example : parse_sysfs_protocol "all" false = SYSFS_INVALID := by decide
example : namesOfMask (SYSFS_NEC ||| SYSFS_RC6) = ["nec", "rc-6"] := by decide
example : write_sysfs_protocols (SYSFS_NEC ||| SYSFS_RC6) (fun n => "+" ++ n ++ "\n") =
    "+nec\n+rc-6\n" := by decide

/-! ## Helper lemmas -/

/-- Clearing one bit group cannot disturb a disjoint bit group below the
32-bit width. -/
lemma clearBits_and_eq (p b c : Nat) (hbc : b &&& c = 0) (hc : c < 2 ^ 32) :
    clearBits p b &&& c = p &&& c := by
  unfold clearBits SYSFS_ALL
  rw [Nat.land_assoc]
  congr 1
  apply Nat.eq_of_testBit_eq
  intro i
  rw [Nat.testBit_land, Nat.testBit_xor, Nat.testBit_two_pow_sub_one]
  by_cases hci : c.testBit i
  · have hi : i < 32 := by
      by_contra hge
      have : c < 2 ^ i := lt_of_lt_of_le hc (Nat.pow_le_pow_right (by norm_num) (le_of_not_lt hge))
      simp [Nat.testBit_lt_two_pow this] at hci
    have hbi : b.testBit i = false := by
      by_contra hb
      have := Nat.testBit_land b c i
      rw [hbc, Nat.zero_testBit] at this
      simp [hci, eq_true_of_ne_false hb] at this
    simp [hci, hbi, hi]
  · simp [eq_false_of_ne_true hci]

/-- Shifting the accumulator out of a string-concatenation fold. -/
lemma foldl_append_shift (l : List String) :
    ∀ s : String, l.foldl (fun r t => r ++ t) s = s ++ l.foldl (fun r t => r ++ t) "" := by
  induction l with
  | nil => intro s; simp
  | cons a l ih =>
    intro s
    simp only [List.foldl_cons]
    rw [ih (s ++ a), ih ("" ++ a)]
    simp [String.append_assoc]

/-- `String.join` unfolded one element. -/
lemma string_join_cons (a : String) (l : List String) :
    String.join (a :: l) = a ++ String.join l := by
  simp only [String.join, List.foldl_cons]
  rw [foldl_append_shift]
  simp

/-- The bit-clearing state of the `write_sysfs_protocols` loop is
invisible as long as the remaining rows carry pairwise-disjoint bits:
the loop emits exactly the rows whose bit is set in the initial mask. -/
lemma write_sysfs_scan_eq_filter (fmt : String → String) :
    ∀ (l : List ProtocolMapEntry) (p : Nat),
      l.Pairwise (fun a b => a.sysfs_protocol &&& b.sysfs_protocol = 0) →
      (∀ pme ∈ l, pme.sysfs_protocol < 2 ^ 32) →
      write_sysfs_scan fmt l p =
        String.join (((l.filter fun pme => decide (p &&& pme.sysfs_protocol ≠ 0)).map
          fun pme => fmt pme.name))
  | [], p, _, _ => by simp [write_sysfs_scan, String.join]
  | pme :: rest, p, hpw, hlt => by
    rcases List.pairwise_cons.mp hpw with ⟨hd, htl⟩
    by_cases h : p &&& pme.sysfs_protocol = 0
    · rw [write_sysfs_scan, if_pos h,
        write_sysfs_scan_eq_filter fmt rest p htl (fun x hx => hlt x (List.mem_cons_of_mem _ hx))]
      simp [List.filter_cons, h]
    · rw [write_sysfs_scan, if_neg h,
        write_sysfs_scan_eq_filter fmt rest (clearBits p pme.sysfs_protocol) htl
          (fun x hx => hlt x (List.mem_cons_of_mem _ hx))]
      have hfil : (rest.filter fun x =>
            decide (clearBits p pme.sysfs_protocol &&& x.sysfs_protocol ≠ 0)) =
          rest.filter fun x => decide (p &&& x.sysfs_protocol ≠ 0) := by
        apply List.filter_congr
        intro x hx
        rw [clearBits_and_eq p pme.sysfs_protocol x.sysfs_protocol (hd x hx)
          (hlt x (List.mem_cons_of_mem _ hx))]
      rw [hfil]
      simp [List.filter_cons, h, string_join_cons]

/-- `write_sysfs_protocols` emits exactly the catalog names of the set
bits, in catalog order, through the format pattern. -/
lemma write_sysfs_protocols_eq_join (p : Nat) (fmt : String → String) :
    write_sysfs_protocols p fmt = String.join ((namesOfMask p).map fmt) := by
  rw [write_sysfs_protocols, namesOfMask,
    write_sysfs_scan_eq_filter fmt protocol_map p (by decide) (by decide), List.map_map]
  rfl

/-! ## Claim theorems -/

/-- C1: for a V1 software-decoder device, `get_attribs` is claimed to put
a protocol whose sysfs subnode exists into `supported` and, when its
`enabled` file reads 1, also into `current`.  The translated code shows
the failing input: a device whose only decoder node is `nec_decoder`
with `enabled` reading 1 ends with `supported = SYSFS_NEC` but
`current = 0` — the enabled state is ORed into `supported` a second time
instead of into `current`, so `current` is identical to the
`enabled = 0` case. -/
theorem c1_get_attribs_sw_current_stays_zero :
    get_attribs_protocols [⟨"/sys/class/rc/rc0/nec_decoder", none, some 1⟩] =
      ⟨.VERSION_1, .SOFTWARE_DECODER, SYSFS_NEC, 0⟩ ∧
    get_attribs_protocols [⟨"/sys/class/rc/rc0/nec_decoder", none, some 0⟩] =
      ⟨.VERSION_1, .SOFTWARE_DECODER, SYSFS_NEC, 0⟩ := by
  decide

/-- C2 (counterexample): with detected evdev protocol version `0x10001`
(indexed family) and the 32-bit scancode 0x100, `add_keys` still issues
the legacy `EVIOCSKEYCODE` pair — not the indexed ioctl the claim's
version-based selection demands. -/
theorem c2_add_keys_ignores_version_counterexample :
    (add_keys [(0x100, 116)]).1 = [KeyIoctl.legacy 0x100 116] ∧
    add_keys_claimed 0x10001 [(0x100, 116)] = [KeyIoctl.v2 0x100 116] ∧
    [KeyIoctl.legacy 0x100 116] ≠ [KeyIoctl.v2 0x100 116] := by
  decide

/-- C2 (amended): `add_keys` chooses per entry on scancode width alone —
the indexed `EVIOCSKEYCODE_V2` ioctl exactly for scancodes that do not
fit 32 bits and the legacy pair ioctl for all others, independent of the
detected protocol version — and returns the number of entries attempted
(ioctl failures only log and the loop continues, so every entry is
counted and issued). -/
theorem c2_add_keys_selection (keytable : List (Nat × Nat)) :
    add_keys keytable =
      (keytable.map fun ke =>
        if 2 ^ 32 ≤ ke.1 then KeyIoctl.v2 ke.1 ke.2 else KeyIoctl.legacy ke.1 ke.2,
       keytable.length) := by
  unfold add_keys
  have hfun : (fun ke : Nat × Nat =>
      let c0 := ke.1 % 2 ^ 32
      if c0 ≠ ke.1 then KeyIoctl.v2 ke.1 ke.2 else KeyIoctl.legacy c0 ke.2) =
      (fun ke : Nat × Nat =>
        if 2 ^ 32 ≤ ke.1 then KeyIoctl.v2 ke.1 ke.2 else KeyIoctl.legacy ke.1 ke.2) := by
    funext ke
    show (if ke.1 % 2 ^ 32 ≠ ke.1 then KeyIoctl.v2 ke.1 ke.2
        else KeyIoctl.legacy (ke.1 % 2 ^ 32) ke.2) =
      if 2 ^ 32 ≤ ke.1 then KeyIoctl.v2 ke.1 ke.2 else KeyIoctl.legacy ke.1 ke.2
    by_cases h : 2 ^ 32 ≤ ke.1
    · have hm : ke.1 % 2 ^ 32 ≠ ke.1 :=
        Nat.ne_of_lt (lt_of_lt_of_le (Nat.mod_lt _ (by norm_num)) h)
      rw [if_pos hm, if_pos h]
    · have hm : ke.1 % 2 ^ 32 = ke.1 := Nat.mod_eq_of_lt (lt_of_not_le h)
      rw [if_neg (fun hne => hne hm), if_neg h, hm]
  rw [hfun]

/-- C4: every catalog name carrying a non-zero bit round-trips: parsing
it, formatting the resulting mask (here through the identity pattern)
emits exactly the canonical name, and that name re-parses to the same
mask; and each documented zero-bit alias parses to the `Invalid` (zero)
mask. -/
theorem c4_parse_format_roundtrip :
    (∀ pme ∈ protocol_map, pme.sysfs_protocol ≠ 0 →
      write_sysfs_protocols (parse_sysfs_protocol pme.name false) (fun n => n) = pme.name ∧
      parse_sysfs_protocol
          (write_sysfs_protocols (parse_sysfs_protocol pme.name false) (fun n => n)) false =
        parse_sysfs_protocol pme.name false) ∧
    (∀ zb ∈ (["rc-5x", "sony12", "sony15", "sony20", "rc-6-0", "rc-6-6a-20",
        "rc-6-6a-24", "rc-6-6a-32", "rc-6-mce"] : List String),
      parse_sysfs_protocol zb false = SYSFS_INVALID) := by
  decide

/-- C4 (witness): the round-trip instantiated at the `nec` row. -/
theorem c4_parse_format_roundtrip_witness :
    write_sysfs_protocols (parse_sysfs_protocol "nec" false) (fun n => n) = "nec" ∧
    parse_sysfs_protocol
        (write_sysfs_protocols (parse_sysfs_protocol "nec" false) (fun n => n)) false =
      parse_sysfs_protocol "nec" false :=
  c4_parse_format_roundtrip.1 ⟨"nec", some "/nec_decoder", SYSFS_NEC⟩ (by decide) (by decide)

/-- C10: `load_bpf_for_unsupported` substitutes a software decoder only
for xbox-dvd: exactly when the xbox-dvd bit is requested but missing
from the supported mask, that bit is cleared from the returned mask and
a parameterless `"xbox-dvd"` BPF request is registered; in every other
case (any other unsupported protocol, or xbox-dvd being supported) both
the mask and the request list are returned unchanged. -/
theorem c10_load_bpf_only_xbox_dvd (protocols supported : Nat) (bpfs : List BpfProtocol) :
    load_bpf_for_unsupported protocols supported bpfs =
      if protocols &&& SYSFS_XBOX_DVD ≠ 0 ∧ supported &&& SYSFS_XBOX_DVD = 0 then
        (clearBits protocols SYSFS_XBOX_DVD, add_bpf_protocol ⟨"xbox-dvd", []⟩ bpfs)
      else (protocols, bpfs) := by
  by_cases h1 : protocols &&& (65536 : Nat) = 0 <;>
    by_cases h2 : supported &&& (65536 : Nat) = 0 <;>
      simp [load_bpf_for_unsupported, protocol_map, load_bpf_step, h1, h2,
        SYSFS_UNKNOWN, SYSFS_OTHER, SYSFS_LIRC, SYSFS_RC5, SYSFS_RC5_SZ, SYSFS_JVC,
        SYSFS_SONY, SYSFS_NEC, SYSFS_SANYO, SYSFS_MCE_KBD, SYSFS_RC6, SYSFS_SHARP,
        SYSFS_XMP, SYSFS_CEC, SYSFS_IMON, SYSFS_RCMM, SYSFS_XBOX_DVD, SYSFS_INVALID]

/-- C6: a BPF request is registered exactly when no already-registered
request has the same name and a parameter set equal as a set — each
`(name, value)` pair of one present in the other, order ignored; in
particular `{a:1,b:2}` then `{b:2,a:1}` under one name registers once,
while `{a:1,b:2}` then `{a:1,b:3}` registers twice. -/
theorem c6_bpf_request_dedup :
    (∀ (new : BpfProtocol) (l : List BpfProtocol),
      (add_bpf_protocol new l = new :: l ∨ add_bpf_protocol new l = l) ∧
      (add_bpf_protocol new l = l ↔ ∃ a ∈ l, a.name = new.name ∧
        (∀ p ∈ a.param, ∃ q ∈ new.param, p.name = q.name ∧ p.value = q.value) ∧
        (∀ p ∈ new.param, ∃ q ∈ a.param, p.name = q.name ∧ p.value = q.value))) ∧
    (add_bpf_protocol ⟨"foo", [⟨"b", 2⟩, ⟨"a", 1⟩]⟩
        (add_bpf_protocol ⟨"foo", [⟨"a", 1⟩, ⟨"b", 2⟩]⟩ [])).length = 1 ∧
    (add_bpf_protocol ⟨"foo", [⟨"a", 1⟩, ⟨"b", 3⟩]⟩
        (add_bpf_protocol ⟨"foo", [⟨"a", 1⟩, ⟨"b", 2⟩]⟩ [])).length = 2 := by
  refine ⟨fun new l => ?_, by decide, by decide⟩
  have hiff : bpf_duplicate new l = true ↔ (∃ a ∈ l, a.name = new.name ∧
      (∀ p ∈ a.param, ∃ q ∈ new.param, p.name = q.name ∧ p.value = q.value) ∧
      (∀ p ∈ new.param, ∃ q ∈ a.param, p.name = q.name ∧ p.value = q.value)) := by
    simp [bpf_duplicate, compare_parameters, List.any_eq_true, List.all_eq_true,
      decide_eq_true_eq, and_assoc]
  constructor
  · by_cases hd : bpf_duplicate new l = true
    · exact Or.inr (by rw [add_bpf_protocol, if_pos hd])
    · exact Or.inl (by rw [add_bpf_protocol, if_neg hd])
  · by_cases hd : bpf_duplicate new l = true
    · rw [add_bpf_protocol, if_pos hd]
      exact iff_of_true rfl (hiff.mp hd)
    · rw [add_bpf_protocol, if_neg hd]
      exact iff_of_false (List.cons_ne_self new l) (fun hex => hd (hiff.mpr hex))

/-- C6 (witness): the dedup criterion instantiated: a same-name request
whose parameter set is a permutation of the registered one is dropped. -/
theorem c6_bpf_request_dedup_witness :
    add_bpf_protocol ⟨"foo", [⟨"b", 2⟩, ⟨"a", 1⟩]⟩ [⟨"foo", [⟨"a", 1⟩, ⟨"b", 2⟩]⟩] =
      [⟨"foo", [⟨"a", 1⟩, ⟨"b", 2⟩]⟩] :=
  ((c6_bpf_request_dedup.1 ⟨"foo", [⟨"b", 2⟩, ⟨"a", 1⟩]⟩
      [⟨"foo", [⟨"a", 1⟩, ⟨"b", 2⟩]⟩]).2).mpr
    ⟨⟨"foo", [⟨"a", 1⟩, ⟨"b", 2⟩]⟩, by decide⟩

/-- C9 (counterexample): with two rc-class entries, `find_device` without
a name returns both entries, not only the first one the claim
promises. -/
theorem c9_find_device_none_counterexample :
    find_device none ["rc0", "rc1"] = some ["/sys/class/rc/rc0/", "/sys/class/rc/rc1/"] ∧
    find_device none ["rc0", "rc1"] ≠ some ["/sys/class/rc/rc0/"] := by
  decide

/-- The `find?` scan of `find_device` over the built name list locates
exactly the entry equal to the requested name. -/
lemma find_device_pred (nm x : String) :
    (decide ((("/sys/class/rc/" ++ x ++ "/") : String).data.drop
        ("/sys/class/rc/" : String).length = (nm ++ "/").data)) = decide (x = nm) := by
  have hdata : (("/sys/class/rc/" ++ x ++ "/") : String).data =
      ("/sys/class/rc/" : String).data ++ (x ++ "/").data := by
    rw [String.append_assoc, String.data_append]
  have hdrop : (("/sys/class/rc/" ++ x ++ "/") : String).data.drop
      ("/sys/class/rc/" : String).length = (x ++ "/").data := by
    rw [hdata]
    exact List.drop_left _ _
  rw [hdrop]
  apply decide_eq_decide.mpr
  constructor
  · intro h
    have hx : x.data ++ ("/" : String).data = nm.data ++ ("/" : String).data := by
      rw [← String.data_append, ← String.data_append]
      exact congrArg String.data (String.ext h)
    exact String.ext ((List.append_left_inj _).mp hx)
  · intro h; rw [h]

lemma find_device_scan (nm : String) : ∀ l : List String,
    ((l.map fun e => "/sys/class/rc/" ++ e ++ "/").find? fun cur =>
        decide (cur.data.drop ("/sys/class/rc/" : String).length = (nm ++ "/").data)) =
      if nm ∈ l then some ("/sys/class/rc/" ++ nm ++ "/") else none := by
  intro l
  induction l with
  | nil => simp
  | cons e es ih =>
    rw [List.map_cons]
    by_cases he : e = nm
    · subst he
      rw [List.find?_cons_of_pos _ (by simp only [find_device_pred]; simp)]
      simp
    · rw [List.find?_cons_of_neg _ (by simp only [find_device_pred]; simp [he]), ih]
      have hiff : (nm ∈ e :: es) ↔ (nm ∈ es) := by
        constructor
        · intro h
          rcases List.mem_cons.mp h with h1 | h1
          · exact absurd h1.symm he
          · exact h1
        · exact fun h => List.mem_cons_of_mem _ h
      simp only [hiff]

/-- C9 (amended): `find_device` without a name returns the whole ordered
list of `/sys/class/rc/` entries whose name begins with `rc` (its head
being the first such entry), not just the first one — the caller listing
devices iterates it; with a name it returns exactly the entry equal to
that name (among the `rc`-prefixed listing), and fails with a not-found
error otherwise. -/
theorem c9_find_device (entries : List String) :
    (find_device none entries =
      if (entries.filter fun e => "rc".data.isPrefixOf e.data).isEmpty then none
      else some ((entries.filter fun e => "rc".data.isPrefixOf e.data).map
          fun e => "/sys/class/rc/" ++ e ++ "/")) ∧
    (∀ nm : String,
      find_device (some nm) entries =
        if "rc".data.isPrefixOf nm.data ∧ nm ∈ entries
        then some ["/sys/class/rc/" ++ nm ++ "/"]
        else none) := by
  constructor
  · unfold find_device seek_sysfs_dir
    cases hfil : entries.filter (fun e => "rc".data.isPrefixOf e.data) with
    | nil => simp [hfil]
    | cons a as => simp [hfil]
  · intro nm
    cases hfil : entries.filter (fun e => "rc".data.isPrefixOf e.data) with
    | nil =>
      have hseek : seek_sysfs_dir "/sys/class/rc/" (some "rc") entries = none := by
        simp [seek_sysfs_dir, hfil]
      have hcond : ¬("rc".data.isPrefixOf nm.data ∧ nm ∈ entries) := by
        rintro ⟨h1, h2⟩
        have hm : nm ∈ entries.filter (fun e => "rc".data.isPrefixOf e.data) :=
          List.mem_filter.mpr ⟨h2, h1⟩
        rw [hfil] at hm
        exact absurd hm (List.not_mem_nil nm)
      simp only [find_device]
      rw [hseek]
      show (none : Option (List String)) = _
      rw [if_neg hcond]
    | cons a as =>
      have hseek : seek_sysfs_dir "/sys/class/rc/" (some "rc") entries =
          some ((a :: as).map fun e => "/sys/class/rc/" ++ e ++ "/") := by
        simp [seek_sysfs_dir, hfil]
      have hmem : (nm ∈ a :: as) ↔ ("rc".data.isPrefixOf nm.data ∧ nm ∈ entries) := by
        rw [← hfil]
        constructor
        · intro h
          rcases List.mem_filter.mp h with ⟨h2, h1⟩
          exact ⟨h1, h2⟩
        · rintro ⟨h1, h2⟩
          exact List.mem_filter.mpr ⟨h2, h1⟩
      simp only [find_device]
      rw [hseek]
      show (match ((a :: as).map fun e => "/sys/class/rc/" ++ e ++ "/").find? fun cur =>
          decide (cur.data.drop ("/sys/class/rc/" : String).length = (nm ++ "/").data) with
        | some cur => some [cur]
        | none => none) = _
      rw [find_device_scan nm (a :: as)]
      by_cases hin : nm ∈ a :: as
      · rw [if_pos hin]
        show some ["/sys/class/rc/" ++ nm ++ "/"] = _
        rw [if_pos (hmem.mp hin)]
      · rw [if_neg hin]
        show (none : Option (List String)) = _
        rw [if_neg (fun h => hin (hmem.mpr h))]

/-- C9 (witness): the name lookup instantiated at `rc1` in a two-entry
listing. -/
theorem c9_find_device_witness :
    find_device (some "rc1") ["rc0", "rc1"] = some ["/sys/class/rc/rc1/"] := by
  have h := (c9_find_device ["rc0", "rc1"]).2 "rc1"
  rw [h]
  decide

/-- `takeWhile` passes over a block that satisfies the predicate. -/
lemma takeWhile_append_all {p : Char → Bool} :
    ∀ (l m : List Char), (∀ c ∈ l, p c = true) → (l ++ m).takeWhile p = l ++ m.takeWhile p := by
  intro l m h
  induction l with
  | nil => simp
  | cons c cs ih =>
    have hc : p c = true := h c (List.mem_cons_self c cs)
    simp only [List.cons_append, List.takeWhile_cons, hc, if_true]
    rw [ih (fun d hd => h d (List.mem_cons_of_mem c hd))]

/-- `dropWhile` consumes a whole block that satisfies the predicate. -/
lemma dropWhile_append_all {p : Char → Bool} :
    ∀ (l m : List Char), (∀ c ∈ l, p c = true) → (l ++ m).dropWhile p = m.dropWhile p := by
  intro l m h
  induction l with
  | nil => simp
  | cons c cs ih =>
    have hc : p c = true := h c (List.mem_cons_self c cs)
    simp only [List.cons_append, List.dropWhile_cons, hc, if_true]
    exact ih (fun d hd => h d (List.mem_cons_of_mem c hd))

/-- A well-formed `KEY=value` line parses to its pair: the key is
non-empty and free of `=` and newline, the value non-empty and free of
newline. -/
lemma uevent_line_wf (k v : List Char) (hk0 : k ≠ []) (hkeq : '=' ∉ k)
    (hknl : '\n' ∉ k) (hv0 : v ≠ []) (hvnl : '\n' ∉ v) :
    uevent_line (k ++ '=' :: (v ++ ['\n'])) = .pair k v := by
  rcases k with _ | ⟨c, cs⟩
  · exact absurd rfl hk0
  have hc : c ≠ '=' := fun h => hkeq (by rw [← h]; exact List.mem_cons_self c cs)
  rcases v with _ | ⟨d, ds⟩
  · exact absurd rfl hv0
  have hd : d ≠ '\n' := fun h => hvnl (by rw [← h]; exact List.mem_cons_self d ds)
  unfold uevent_line
  have h1 : ((c :: cs) ++ '=' :: ((d :: ds) ++ ['\n'])).dropWhile (fun x => x = '=') =
      (c :: cs) ++ '=' :: ((d :: ds) ++ ['\n']) := by
    simp [List.dropWhile_cons, hc]
  rw [h1]
  have hkall : ∀ x ∈ c :: cs, (decide ¬(x = '=')) = true := by
    intro x hx
    exact decide_eq_true (fun h => hkeq (h ▸ hx))
  have h2 : ((c :: cs) ++ '=' :: ((d :: ds) ++ ['\n'])).takeWhile (fun x => decide ¬(x = '=')) =
      c :: cs := by
    rw [takeWhile_append_all _ _ hkall]
    simp [List.takeWhile_cons]
  have h3 : ((c :: cs) ++ '=' :: ((d :: ds) ++ ['\n'])).dropWhile (fun x => decide ¬(x = '=')) =
      '=' :: ((d :: ds) ++ ['\n']) := by
    rw [dropWhile_append_all _ _ hkall]
    simp [List.dropWhile_cons]
  have h4 : ((d :: ds) ++ ['\n']).dropWhile (fun x => x = '\n') = (d :: ds) ++ ['\n'] := by
    simp [List.dropWhile_cons, hd]
  have hvall : ∀ x ∈ d :: ds, (decide ¬(x = '\n')) = true := by
    intro x hx
    exact decide_eq_true (fun h => hvnl (h ▸ hx))
  have h5 : ((d :: ds) ++ ['\n']).takeWhile (fun x => decide ¬(x = '\n')) = d :: ds := by
    rw [takeWhile_append_all _ _ hvall]
    simp [List.takeWhile_cons]
  simp only [h2, h3, List.tail_cons, h4, h5]
  simp

/-- A non-empty line containing no `=` character drives the parse into
the abort branch. -/
lemma uevent_line_no_eq (l : List Char) (h0 : l ≠ []) (heq : '=' ∉ l) :
    uevent_line l = .abort := by
  rcases l with _ | ⟨c, cs⟩
  · exact absurd rfl h0
  have hc : c ≠ '=' := fun h => heq (by rw [← h]; exact List.mem_cons_self c cs)
  unfold uevent_line
  have h1 : (c :: cs).dropWhile (fun x => x = '=') = c :: cs := by
    simp [List.dropWhile_cons, hc]
  rw [h1]
  have hall : ∀ x ∈ c :: cs, (decide ¬(x = '=')) = true := by
    intro x hx
    exact decide_eq_true (fun h => heq (h ▸ hx))
  have h3 : (c :: cs).dropWhile (fun x => decide ¬(x = '=')) = [] := by
    have := dropWhile_append_all (p := fun x => decide ¬(x = '=')) (c :: cs) [] hall
    simpa using this
  simp only [h3, List.tail_nil]
  simp

/-- C8 (counterexample): a uevent file whose second line `FOO\n` has no
`=` does not yield the pairs of the well-formed lines — the whole parse
fails with NULL instead of skipping the line. -/
theorem c8_uevents_no_eq_counterexample :
    read_sysfs_uevents ["DEVNAME=input0\n", "FOO\n"] = none ∧
    read_sysfs_uevents ["DEVNAME=input0\n", "FOO\n"] ≠
      some [("DEVNAME".data, "input0".data)] := by
  decide

/-- `read_uevent_lines` on well-formed `key ++ '=' ++ value ++ '\n'`
lines yields exactly the pairs. -/
lemma read_uevent_lines_wf : ∀ kvs : List (List Char × List Char),
    (∀ p ∈ kvs, p.1 ≠ [] ∧ '=' ∉ p.1 ∧ '\n' ∉ p.1 ∧ p.2 ≠ [] ∧ '\n' ∉ p.2) →
    read_uevent_lines (kvs.map fun p => p.1 ++ '=' :: (p.2 ++ ['\n'])) = some kvs := by
  intro kvs h
  induction kvs with
  | nil => rfl
  | cons p ps ih =>
    rcases h p (List.mem_cons_self p ps) with ⟨h1, h2, h3, h4, h5⟩
    simp only [List.map_cons, read_uevent_lines,
      uevent_line_wf p.1 p.2 h1 h2 h3 h4 h5]
    rw [ih (fun q hq => h q (List.mem_cons_of_mem p hq))]
    rfl

/-- Any line without `=` (and with at least one character) aborts
`read_uevent_lines` wholesale, wherever it sits. -/
lemma read_uevent_lines_abort : ∀ ls : List (List Char),
    (∃ l ∈ ls, l ≠ [] ∧ '=' ∉ l) → read_uevent_lines ls = none := by
  intro ls h
  induction ls with
  | nil => rcases h with ⟨l, hl, _⟩; exact absurd hl (List.not_mem_nil l)
  | cons l0 rest ih =>
    rcases h with ⟨l, hl, hne, heq⟩
    rcases List.mem_cons.mp hl with rfl | hmem
    · simp only [read_uevent_lines, uevent_line_no_eq l hne heq]
    · cases h0 : uevent_line l0 with
      | skip =>
        simp only [read_uevent_lines, h0]
        exact ih ⟨l, hmem, hne, heq⟩
      | abort => simp only [read_uevent_lines, h0]
      | pair k v =>
        simp only [read_uevent_lines, h0, ih ⟨l, hmem, hne, heq⟩]
        rfl

/-- C8 (amended): every well-formed `KEY=value` line contributes its
`(key, value)` pair in file order (unrecognized keys being ignored only
by the consumers), but a line containing no `=` character is not
skipped: it makes `read_sysfs_uevents` report an error and return NULL,
so none of the other lines' pairs are delivered. -/
theorem c8_uevents :
    (∀ kvs : List (String × String),
      (∀ p ∈ kvs, p.1 ≠ "" ∧ '=' ∉ p.1.data ∧ '\n' ∉ p.1.data ∧
        p.2 ≠ "" ∧ '\n' ∉ p.2.data) →
      read_sysfs_uevents (kvs.map fun p => p.1 ++ "=" ++ p.2 ++ "\n") =
        some (kvs.map fun p => (p.1.data, p.2.data))) ∧
    (∀ lines : List String, (∃ l ∈ lines, l ≠ "" ∧ '=' ∉ l.data) →
      read_sysfs_uevents lines = none) := by
  constructor
  · intro kvs h
    unfold read_sysfs_uevents
    have hdata : ∀ a b : String, ((a ++ "=" ++ b ++ "\n") : String).data =
        a.data ++ '=' :: (b.data ++ ['\n']) := by
      intro a b
      simp [String.data_append]
    have hmap : ((kvs.map fun p => p.1 ++ "=" ++ p.2 ++ "\n").map String.data) =
        ((kvs.map fun p => (p.1.data, p.2.data)).map
          fun p => p.1 ++ '=' :: (p.2 ++ ['\n'])) := by
      rw [List.map_map, List.map_map]
      apply List.map_congr_left
      intro p _
      exact hdata p.1 p.2
    rw [hmap]
    apply read_uevent_lines_wf
    intro q hq
    rcases List.mem_map.mp hq with ⟨p, hp, rfl⟩
    rcases h p hp with ⟨h1, h2, h3, h4, h5⟩
    refine ⟨fun hc => h1 (String.ext (by simpa using hc)), h2, h3,
      fun hc => h4 (String.ext (by simpa using hc)), h5⟩
  · intro lines h
    rcases h with ⟨l, hl, hne, heq⟩
    apply read_uevent_lines_abort
    refine ⟨l.data, List.mem_map_of_mem String.data hl, ?_, heq⟩
    exact fun hc => hne (String.ext (by simpa using hc))

/-- C8 (witness): a single well-formed line parses to its pair, and one
`=`-less line poisons the whole file. -/
theorem c8_uevents_witness :
    read_sysfs_uevents ["DEVNAME=input0\n"] = some [("DEVNAME".data, "input0".data)] ∧
    read_sysfs_uevents ["FOO\n"] = none := by
  constructor
  · exact c8_uevents.1 [("DEVNAME", "input0")] (by decide)
  · exact c8_uevents.2 ["FOO\n"] ⟨"FOO\n", by decide, by decide, by decide⟩

/-- C3: `set_proto` is asymmetric between the two sysfs generations.
For a V2 device the target mask is not intersected with `supported` (the
device record is returned untouched); the write is refused with an error
and nothing is written when the `protocols` node lacks write permission;
otherwise the node receives `"none\n"` followed by one `"+<name>\n"`
line per set bit of the target mask (names in catalog order, one per
non-zero catalog bit present).  For a V1 device the target mask is first
intersected with `supported`; a software decoder then gets one
`"1"`/`"0"` write to each supported catalog fragment's `enabled` node
according to the narrowed mask, and a hardware decoder gets one
space-separated line of the narrowed mask's protocol names. -/
theorem c3_set_proto_asymmetry (dev : RcDevice) (mode : Option Nat) :
    (dev.version = .VERSION_2 →
      (set_proto dev mode).2 = dev ∧
      (v2_write_refused mode = true → set_proto dev mode = (.refused, dev)) ∧
      (v2_write_refused mode = false →
        set_proto dev mode =
          (.v2Wrote ("none\n" ++ String.join ((namesOfMask dev.current).map
              fun n => "+" ++ n ++ "\n")), dev))) ∧
    (dev.version = .VERSION_1 → dev.type = .SOFTWARE_DECODER →
      set_proto dev mode =
        (.v1Sw ((protocol_map.filter fun pme =>
            pme.sysfs1_name.isSome && decide (dev.supported &&& pme.sysfs_protocol ≠ 0)).map
            fun pme => (pme.sysfs1_name.getD "",
              decide ((dev.current &&& dev.supported) &&& pme.sysfs_protocol ≠ 0))),
         { dev with current := dev.current &&& dev.supported })) ∧
    (dev.version = .VERSION_1 → dev.type ≠ .SOFTWARE_DECODER →
      set_proto dev mode =
        (.v1Hw (String.join ((namesOfMask (dev.current &&& dev.supported)).map
            fun n => n ++ " ") ++ "\n"),
         { dev with current := dev.current &&& dev.supported })) := by
  refine ⟨fun hv2 => ?_, fun hv1 hsw => ?_, fun hv1 hhw => ?_⟩
  · refine ⟨?_, fun href => ?_, fun href => ?_⟩
    · unfold set_proto
      rw [if_pos hv2]
      cases v2_set_protocols dev.current mode <;> rfl
    · unfold set_proto
      rw [if_pos hv2]
      unfold v2_set_protocols
      rw [if_pos href]
    · unfold set_proto
      rw [if_pos hv2]
      unfold v2_set_protocols
      rw [if_neg (by rw [href]; exact Bool.false_ne_true), write_sysfs_protocols_eq_join]
  · unfold set_proto
    rw [if_neg (by rw [hv1]; intro h; exact SysfsVer.noConfusion h), if_pos hsw]
    rfl
  · unfold set_proto
    rw [if_neg (by rw [hv1]; intro h; exact SysfsVer.noConfusion h), if_neg hhw,
      v1_set_hw_protocols, write_sysfs_protocols_eq_join]

/-- C3 (witness): the three branches at concrete devices — a V2 device
with an unwritable node refuses, a V2 device with a writable node gets
the `none` + `+name` lines, and V1 devices narrow `current` by
`supported` before writing. -/
theorem c3_set_proto_asymmetry_witness :
    set_proto ⟨.VERSION_2, .UNKNOWN_TYPE, SYSFS_NEC, SYSFS_RC6⟩ (some 0o444) =
      (.refused, ⟨.VERSION_2, .UNKNOWN_TYPE, SYSFS_NEC, SYSFS_RC6⟩) ∧
    set_proto ⟨.VERSION_2, .UNKNOWN_TYPE, SYSFS_NEC, SYSFS_NEC ||| SYSFS_RC6⟩ (some 0o644) =
      (.v2Wrote ("none\n" ++ String.join ((namesOfMask (SYSFS_NEC ||| SYSFS_RC6)).map
          fun n => "+" ++ n ++ "\n")),
       ⟨.VERSION_2, .UNKNOWN_TYPE, SYSFS_NEC, SYSFS_NEC ||| SYSFS_RC6⟩) ∧
    set_proto ⟨.VERSION_1, .HARDWARE_DECODER, SYSFS_NEC ||| SYSFS_RC5,
        SYSFS_NEC ||| SYSFS_RC6⟩ none =
      (.v1Hw (String.join ((namesOfMask ((SYSFS_NEC ||| SYSFS_RC6) &&&
            (SYSFS_NEC ||| SYSFS_RC5))).map fun n => n ++ " ") ++ "\n"),
       ⟨.VERSION_1, .HARDWARE_DECODER, SYSFS_NEC ||| SYSFS_RC5,
        (SYSFS_NEC ||| SYSFS_RC6) &&& (SYSFS_NEC ||| SYSFS_RC5)⟩) :=
  ⟨((c3_set_proto_asymmetry ⟨.VERSION_2, .UNKNOWN_TYPE, SYSFS_NEC, SYSFS_RC6⟩
        (some 0o444)).1 rfl).2.1 (by decide),
   ((c3_set_proto_asymmetry ⟨.VERSION_2, .UNKNOWN_TYPE, SYSFS_NEC, SYSFS_NEC ||| SYSFS_RC6⟩
        (some 0o644)).1 rfl).2.2 (by decide),
   (c3_set_proto_asymmetry ⟨.VERSION_1, .HARDWARE_DECODER, SYSFS_NEC ||| SYSFS_RC5,
        SYSFS_NEC ||| SYSFS_RC6⟩ none).2.2 rfl (by decide)⟩

/-! ## Separator/case variants (claim C5) -/

/-- The separator-free, lowercased skeleton of a protocol name: the part
`protocol_like` actually compares. -/
def stripLower (l : List Char) : List Char :=
  (l.filter fun c => !isSep c).map lowerChar

/-- No two adjacent separator characters. -/
def noAdjSeps : List Char → Bool
  | [] => true
  | [_] => true
  | x :: y :: rest => !(isSep x && isSep y) && noAdjSeps (y :: rest)

/-- Does not end with a separator character. -/
def noTrailSep : List Char → Bool
  | [] => true
  | [c] => !isSep c
  | _ :: c :: rest => noTrailSep (c :: rest)

/-- A name shape `protocol_like` treats transparently: no doubled
separator and no trailing separator.  Every catalog name is of this
shape. -/
def wfName (l : List Char) : Bool :=
  noAdjSeps l && noTrailSep l

lemma char_toNat_ofNat (n : Nat) (h : n.isValidChar) : (Char.ofNat n).toNat = n := by
  simp [Char.ofNat, Char.toNat, h, Char.ofNatAux, UInt32.toNat, BitVec.toNat_ofNatLt]

/-- Lowercasing never moves a character into or out of the separator
set. -/
lemma isSep_lowerChar (q : Char) : isSep (lowerChar q) = isSep q := by
  unfold lowerChar
  by_cases h : 65 ≤ q.toNat ∧ q.toNat ≤ 90
  · rw [if_pos h]
    have hv : (q.toNat + 32).isValidChar := Or.inl (by omega)
    have ht := char_toNat_ofNat (q.toNat + 32) hv
    have h1 : Char.ofNat (q.toNat + 32) ≠ '-' := by
      intro he
      have := congrArg Char.toNat he
      rw [ht] at this
      have h45 : ('-' : Char).toNat = 45 := rfl
      rw [h45] at this
      omega
    have h2 : Char.ofNat (q.toNat + 32) ≠ '_' := by
      intro he
      have := congrArg Char.toNat he
      rw [ht] at this
      have h95 : ('_' : Char).toNat = 95 := rfl
      rw [h95] at this
      omega
    have h3 : q ≠ '-' := by
      intro he
      rw [he] at h
      exact absurd h (by decide)
    have h4 : q ≠ '_' := by
      intro he
      rw [he] at h
      exact absurd h (by decide)
    simp [isSep, h1, h2, h3, h4]
  · rw [if_neg h]

/-- Separator characters are fixed by lowercasing. -/
lemma lowerChar_sep (p : Char) (hp : isSep p = true) : lowerChar p = p := by
  have hp' : p = '-' ∨ p = '_' := by simpa [isSep] using hp
  rcases hp' with rfl | rfl <;> decide

/-- A separator never compares case-insensitively equal to a
non-separator. -/
lemma lowerEq_sep_left (p q : Char) (hp : isSep p = true) (hq : isSep q = false) :
    lowerEq p q = false := by
  apply decide_eq_false
  intro he
  have h1 : isSep (lowerChar q) = false := by rw [isSep_lowerChar]; exact hq
  rw [← he, lowerChar_sep p hp] at h1
  rw [h1] at hp
  exact Bool.false_ne_true hp

lemma lowerEq_iff (p q : Char) : lowerEq p q = true ↔ lowerChar p = lowerChar q := by
  simp [lowerEq]

lemma stripLower_cons_sep (x : Char) (xs : List Char) (h : isSep x = true) :
    stripLower (x :: xs) = stripLower xs := by
  simp [stripLower, List.filter_cons, h]

lemma stripLower_cons (x : Char) (xs : List Char) (h : isSep x = false) :
    stripLower (x :: xs) = lowerChar x :: stripLower xs := by
  simp [stripLower, List.filter_cons, h]

lemma wfName_cons (x : Char) (xs : List Char) (h : isSep x = false) :
    wfName (x :: xs) = wfName xs := by
  cases xs with
  | nil => simp [wfName, noAdjSeps, noTrailSep, h]
  | cons y rest => simp [wfName, noAdjSeps, noTrailSep, h]

lemma wfName_sep_nil (x : Char) (h : isSep x = true) : wfName [x] = false := by
  simp [wfName, noAdjSeps, noTrailSep, h]

lemma wfName_sep_cons (x y : Char) (rest : List Char) (hx : isSep x = true) :
    wfName (x :: y :: rest) = (!isSep y && wfName (y :: rest)) := by
  cases hy : isSep y <;> simp [wfName, noAdjSeps, noTrailSep, hx, hy, Bool.and_assoc]

/-- A non-empty well-formed name has a non-empty skeleton. -/
lemma stripLower_ne_nil_of_wf : ∀ l : List Char, l ≠ [] → wfName l = true →
    stripLower l ≠ [] := by
  intro l hne hwf
  induction l with
  | nil => exact absurd rfl hne
  | cons x xs ih =>
    by_cases hx : isSep x = true
    · cases xs with
      | nil => rw [wfName_sep_nil x hx] at hwf; exact absurd hwf Bool.false_ne_true
      | cons y rest =>
        rw [wfName_sep_cons x y rest hx] at hwf
        simp only [Bool.and_eq_true, Bool.not_eq_true'] at hwf
        rw [stripLower_cons_sep x _ hx, stripLower_cons y rest hwf.1]
        exact List.cons_ne_nil _ _
    · rw [stripLower_cons x xs (Bool.of_not_eq_true hx)]
      exact List.cons_ne_nil _ _

/-- What `protocol_like` accepts against a well-formed right-hand name:
exactly the strings with the same separator-free lowercase skeleton that
are themselves free of doubled and trailing separators. -/
lemma protocol_like_iff : ∀ (a b : List Char), wfName b = true →
    (protocol_like a b = true ↔ (stripLower a = stripLower b ∧ wfName a = true))
  | [], [], _ => iff_of_true rfl ⟨rfl, rfl⟩
  | [], y :: ys, hb => by
    refine iff_of_false (fun h => Bool.false_ne_true h) (fun hrg => ?_)
    exact stripLower_ne_nil_of_wf (y :: ys) (List.cons_ne_nil y ys) hb hrg.1.symm
  | x :: xs, [], _ => by
    refine iff_of_false (fun h => Bool.false_ne_true h) (fun hrg => ?_)
    exact stripLower_ne_nil_of_wf (x :: xs) (List.cons_ne_nil x xs) hrg.2 hrg.1
  | x :: xs, y :: ys, hb => by
    unfold protocol_like
    by_cases hx : isSep x = true
    · rw [if_pos hx]
      by_cases hy : isSep y = true
      · rw [if_pos hy]
        cases ys with
        | nil =>
          rw [wfName_sep_nil y hy] at hb
          exact absurd hb Bool.false_ne_true
        | cons q qs =>
          rw [wfName_sep_cons y q qs hy] at hb
          simp only [Bool.and_eq_true, Bool.not_eq_true'] at hb
          rcases hb with ⟨hq, hwq⟩
          have hwqs : wfName qs = true := by rw [← wfName_cons q qs hq]; exact hwq
          cases xs with
          | nil =>
            refine iff_of_false (fun h => Bool.false_ne_true h) (fun hrg => ?_)
            rw [stripLower_cons_sep x [] hx, stripLower_cons_sep y (q :: qs) hy,
              stripLower_cons q qs hq] at hrg
            exact List.cons_ne_nil _ _ hrg.1.symm
          | cons p ps =>
            by_cases hp : isSep p = true
            · refine iff_of_false (fun h => ?_) (fun hrg => ?_)
              · have h' : (lowerEq p q && protocol_like ps qs) = true := h
                rw [lowerEq_sep_left p q hp hq] at h'
                simp at h'
              · have := hrg.2
                rw [wfName_sep_cons x p ps hx] at this
                simp [hp] at this
            · have hp' : isSep p = false := Bool.of_not_eq_true hp
              rw [stripLower_cons_sep x (p :: ps) hx, stripLower_cons p ps hp',
                stripLower_cons_sep y (q :: qs) hy, stripLower_cons q qs hq,
                wfName_sep_cons x p ps hx, hp']
              simp only [Bool.and_eq_true, Bool.not_false, true_and,
                wfName_cons p ps hp', lowerEq_iff,
                protocol_like_iff ps qs hwqs, List.cons.injEq]
              tauto
      · have hy' : isSep y = false := Bool.of_not_eq_true hy
        rw [if_neg hy]
        have hwys : wfName ys = true := by rw [← wfName_cons y ys hy']; exact hb
        cases xs with
        | nil =>
          refine iff_of_false (fun h => Bool.false_ne_true h) (fun hrg => ?_)
          rw [stripLower_cons_sep x [] hx, stripLower_cons y ys hy'] at hrg
          exact List.cons_ne_nil _ _ hrg.1.symm
        | cons p ps =>
          by_cases hp : isSep p = true
          · refine iff_of_false (fun h => ?_) (fun hrg => ?_)
            · have h' : (lowerEq p y && protocol_like ps ys) = true := h
              rw [lowerEq_sep_left p y hp hy'] at h'
              simp at h'
            · have := hrg.2
              rw [wfName_sep_cons x p ps hx] at this
              simp [hp] at this
          · have hp' : isSep p = false := Bool.of_not_eq_true hp
            rw [stripLower_cons_sep x (p :: ps) hx, stripLower_cons p ps hp',
              stripLower_cons y ys hy', wfName_sep_cons x p ps hx, hp']
            simp only [Bool.and_eq_true, Bool.not_false, true_and,
              wfName_cons p ps hp', lowerEq_iff,
              protocol_like_iff ps ys hwys, List.cons.injEq]
            tauto
    · have hx' : isSep x = false := Bool.of_not_eq_true hx
      rw [if_neg hx]
      by_cases hy : isSep y = true
      · rw [if_pos hy]
        cases ys with
        | nil =>
          rw [wfName_sep_nil y hy] at hb
          exact absurd hb Bool.false_ne_true
        | cons q qs =>
          rw [wfName_sep_cons y q qs hy] at hb
          simp only [Bool.and_eq_true, Bool.not_eq_true'] at hb
          rcases hb with ⟨hq, hwq⟩
          have hwqs : wfName qs = true := by rw [← wfName_cons q qs hq]; exact hwq
          rw [stripLower_cons x xs hx', stripLower_cons_sep y (q :: qs) hy,
            stripLower_cons q qs hq, wfName_cons x xs hx']
          simp only [Bool.and_eq_true, lowerEq_iff,
            protocol_like_iff xs qs hwqs, List.cons.injEq]
          tauto
      · have hy' : isSep y = false := Bool.of_not_eq_true hy
        rw [if_neg hy]
        have hwys : wfName ys = true := by rw [← wfName_cons y ys hy']; exact hb
        rw [stripLower_cons x xs hx', stripLower_cons y ys hy', wfName_cons x xs hx']
        simp only [Bool.and_eq_true, lowerEq_iff,
          protocol_like_iff xs ys hwys, List.cons.injEq]
        tauto

/-- Entry-wise equal `protocol_like` outcomes give equal catalog
scans. -/
lemma parse_scan_congr (a b : List Char) : ∀ l : List ProtocolMapEntry,
    (∀ e ∈ l, protocol_like a e.name.data = protocol_like b e.name.data) →
    parse_scan a l = parse_scan b l
  | [], _ => rfl
  | e :: rest, h => by
    simp only [parse_scan]
    rw [h e (List.mem_cons_self e rest),
      parse_scan_congr a b rest fun e' he' => h e' (List.mem_cons_of_mem e he')]

/-- C5 (counterexample): inserting a second `-` into `rc-5` — a legal
variant under the claim's "inserting separators" rule — no longer
parses: `protocol_like` skips at most one separator per position, so
`rc--5` falls to the Invalid mask instead of `SYSFS_RC5`. -/
theorem c5_doubled_separator_counterexample :
    parse_sysfs_protocol "rc--5" false = SYSFS_INVALID ∧
    parse_sysfs_protocol "rc-5" false = SYSFS_RC5 ∧
    SYSFS_INVALID ≠ SYSFS_RC5 := by
  decide

/-- C5 (amended): protocol-name parsing is insensitive to letter case
and to inserting, removing or substituting `-`/`_` separators as long as
the variant never carries two adjacent separators or a trailing one:
any string with the same separator-free lowercase skeleton as a catalog
name and of that well-formed shape parses to the same mask; in
particular `RC_5`, `rc-5` and `rc5` all parse identically. -/
theorem c5_parse_separator_variants :
    (∀ pme ∈ protocol_map, ∀ v : String,
      stripLower v.data = stripLower pme.name.data → wfName v.data = true →
      parse_sysfs_protocol v false = parse_sysfs_protocol pme.name false) ∧
    (parse_sysfs_protocol "RC_5" false = parse_sysfs_protocol "rc-5" false ∧
     parse_sysfs_protocol "rc5" false = parse_sysfs_protocol "rc-5" false) := by
  constructor
  · intro pme hpme v hstrip hwf
    have hcat : ∀ e ∈ protocol_map, wfName e.name.data = true := by decide
    have hv : parse_sysfs_protocol v false = parse_scan v.data protocol_map := rfl
    have hn : parse_sysfs_protocol pme.name false =
        parse_scan pme.name.data protocol_map := rfl
    rw [hv, hn]
    apply parse_scan_congr
    intro e he
    have hwfe := hcat e he
    have hwfn := hcat pme hpme
    rw [Bool.eq_iff_iff, protocol_like_iff v.data e.name.data hwfe,
      protocol_like_iff pme.name.data e.name.data hwfe, hstrip]
    simp [hwfn, hwf]
  · exact ⟨by decide, by decide⟩

/-- C5 (witness): the variant rule applied to the `rc-5` row and the
variant `RC_5`. -/
theorem c5_parse_separator_variants_witness :
    parse_sysfs_protocol "RC_5" false = parse_sysfs_protocol "rc-5" false :=
  c5_parse_separator_variants.1 ⟨"rc-5", some "/rc5_decoder", SYSFS_RC5⟩
    (by decide) "RC_5" (by decide) (by decide)

/-! ## Raw-entry virtualization (claim C7) -/

/-- The number of raw entries across all keymaps whose keycode string
resolves — each consumes exactly one synthetic scancode. -/
def totalResolvedRaws (resolve : String → Option Int) (maps : List Keymap) : Nat :=
  (maps.map fun m => (m.raw.filter fun k => (resolve k).isSome).length).sum

/-- The scancode-entry loop touches neither the rawtable nor the counter
and only grows the keytable. -/
lemma add_keymap_scancodes_invariant (resolve : String → Option Int) :
    ∀ (es : List (Nat × String)) (st : KeytableState),
      (add_keymap_scancodes resolve es st).raw_scancode = st.raw_scancode ∧
      (add_keymap_scancodes resolve es st).rawtable = st.rawtable ∧
      (∀ p ∈ st.keytable, p ∈ (add_keymap_scancodes resolve es st).keytable) := by
  intro es
  induction es with
  | nil => exact fun st => ⟨rfl, rfl, fun p hp => hp⟩
  | cons e rest ih =>
    intro st
    show (add_keymap_scancodes resolve rest _).raw_scancode = _ ∧ _
    cases hre : resolve e.2 with
    | none =>
      simp only [add_keymap_scancodes, List.foldl_cons, hre]
      exact ih st
    | some w =>
      simp only [add_keymap_scancodes, List.foldl_cons, hre]
      rcases ih { st with keytable := (e.1, w) :: st.keytable } with ⟨h1, h2, h3⟩
      exact ⟨h1, h2, fun p hp => h3 p (List.mem_cons_of_mem _ hp)⟩

/-- The raw-entry loop: the counter advances by one per resolved entry,
the resolved entries' synthetic scancodes `c, c+1, …` are pushed (newest
first) onto the rawtable, the keytable only grows, and every rawtable
entry is either pre-existing or carries a resolved keycode that also
sits in the keytable under the same scancode. -/
lemma add_keymap_raws_invariant (resolve : String → Option Int) :
    ∀ (es : List String) (st : KeytableState),
      (add_keymap_raws resolve es st).raw_scancode =
        st.raw_scancode + (es.filter fun k => (resolve k).isSome).length ∧
      (add_keymap_raws resolve es st).rawtable.map Prod.fst =
        (List.range' st.raw_scancode
            ((es.filter fun k => (resolve k).isSome).length)).reverse ++
          st.rawtable.map Prod.fst ∧
      (∀ p ∈ st.keytable, p ∈ (add_keymap_raws resolve es st).keytable) ∧
      (∀ p ∈ (add_keymap_raws resolve es st).rawtable, p ∈ st.rawtable ∨
        ∃ w, resolve p.2 = some w ∧ (p.1, w) ∈ (add_keymap_raws resolve es st).keytable) := by
  intro es
  induction es with
  | nil => exact fun st => ⟨rfl, by simp [add_keymap_raws], fun p hp => hp,
      fun p hp => Or.inl hp⟩
  | cons k rest ih =>
    intro st
    cases hrk : resolve k with
    | none =>
      simp only [add_keymap_raws, List.foldl_cons, hrk, List.filter_cons,
        Option.isSome_none, Bool.false_eq_true, if_false]
      exact ih st
    | some w =>
      have hstep : add_keymap_raws resolve (k :: rest) st =
          add_keymap_raws resolve rest
            { st with
              keytable := (st.raw_scancode, w) :: st.keytable
              rawtable := (st.raw_scancode, k) :: st.rawtable
              raw_scancode := st.raw_scancode + 1 } := by
        simp only [add_keymap_raws, List.foldl_cons, hrk]
      have hflt : ((k :: rest).filter fun k => (resolve k).isSome).length =
          ((rest.filter fun k => (resolve k).isSome).length) + 1 := by
        simp [List.filter_cons, hrk]
      rcases ih { st with
          keytable := (st.raw_scancode, w) :: st.keytable
          rawtable := (st.raw_scancode, k) :: st.rawtable
          raw_scancode := st.raw_scancode + 1 } with ⟨h1, h2, h3, h4⟩
      refine ⟨?_, ?_, ?_, ?_⟩
      · rw [hstep, h1, hflt]
        dsimp only
        omega
      · rw [hstep, h2, hflt]
        have hr : List.range' st.raw_scancode
            ((rest.filter fun k => (resolve k).isSome).length + 1) =
            st.raw_scancode :: List.range' (st.raw_scancode + 1)
              ((rest.filter fun k => (resolve k).isSome).length) :=
          List.range'_succ _ _ 1
        dsimp only
        rw [hr]
        simp
      · intro p hp
        rw [hstep]
        exact h3 p (List.mem_cons_of_mem _ hp)
      · intro p hp
        rw [hstep] at hp
        rcases h4 p hp with hmem | hres
        · rcases List.mem_cons.mp hmem with rfl | hmem'
          · refine Or.inr ⟨w, hrk, ?_⟩
            rw [hstep]
            exact h3 _ (List.mem_cons_self _ _)
          · exact Or.inl hmem'
        · rcases hres with ⟨w', hw', hmemk⟩
          rw [hstep]
          exact Or.inr ⟨w', hw', hmemk⟩

/-- Composition of the scancode and raw loops, relative to any state
`st'` that agrees with `st` on the keytable, rawtable and counter (the
protocol-routing step only touches `ch_proto`/`bpf`). -/
lemma keymap_one_core (resolve : String → Option Int) (m : Keymap)
    (st st' : KeytableState) (hkt : st'.keytable = st.keytable)
    (hrt : st'.rawtable = st.rawtable) (hc : st'.raw_scancode = st.raw_scancode) :
    (add_keymap_raws resolve m.raw
        (add_keymap_scancodes resolve m.scancode st')).raw_scancode =
      st.raw_scancode + (m.raw.filter fun k => (resolve k).isSome).length ∧
    (add_keymap_raws resolve m.raw
        (add_keymap_scancodes resolve m.scancode st')).rawtable.map Prod.fst =
      (List.range' st.raw_scancode
          ((m.raw.filter fun k => (resolve k).isSome).length)).reverse ++
        st.rawtable.map Prod.fst ∧
    (∀ p ∈ st.keytable, p ∈ (add_keymap_raws resolve m.raw
        (add_keymap_scancodes resolve m.scancode st')).keytable) ∧
    (∀ p ∈ (add_keymap_raws resolve m.raw
        (add_keymap_scancodes resolve m.scancode st')).rawtable,
      p ∈ st.rawtable ∨ ∃ w, resolve p.2 = some w ∧
        (p.1, w) ∈ (add_keymap_raws resolve m.raw
          (add_keymap_scancodes resolve m.scancode st')).keytable) := by
  rcases add_keymap_scancodes_invariant resolve m.scancode st' with ⟨hs1, hs2, hs3⟩
  rcases add_keymap_raws_invariant resolve m.raw
      (add_keymap_scancodes resolve m.scancode st') with ⟨hr1, hr2, hr3, hr4⟩
  refine ⟨?_, ?_, ?_, ?_⟩
  · rw [hr1, hs1, hc]
  · rw [hr2, hs1, hs2, hrt, hc]
  · intro p hp
    exact hr3 p (hs3 p (hkt ▸ hp))
  · intro p hp
    rcases hr4 p hp with hmem | hres
    · rw [hs2, hrt] at hmem
      exact Or.inl hmem
    · exact Or.inr hres

/-- One keymap's worth of `add_keymap`: protocol routing leaves the
three keycode tables alone, so the counter advances by this keymap's
resolved raw count and the rawtable/keytable invariants compose. -/
lemma add_keymap_one_invariant (resolve : String → Option Int) (m : Keymap)
    (st : KeytableState) :
    (add_keymap_one resolve st m).raw_scancode =
      st.raw_scancode + (m.raw.filter fun k => (resolve k).isSome).length ∧
    (add_keymap_one resolve st m).rawtable.map Prod.fst =
      (List.range' st.raw_scancode
          ((m.raw.filter fun k => (resolve k).isSome).length)).reverse ++
        st.rawtable.map Prod.fst ∧
    (∀ p ∈ st.keytable, p ∈ (add_keymap_one resolve st m).keytable) ∧
    (∀ p ∈ (add_keymap_one resolve st m).rawtable, p ∈ st.rawtable ∨
      ∃ w, resolve p.2 = some w ∧ (p.1, w) ∈ (add_keymap_one resolve st m).keytable) := by
  by_cases hp : parse_sysfs_protocol m.protocol false = SYSFS_INVALID
  · by_cases hn : m.protocol ≠ "none"
    · have heq : add_keymap_one resolve st m =
          add_keymap_raws resolve m.raw (add_keymap_scancodes resolve m.scancode
            { st with bpf := add_bpf_protocol ⟨m.protocol, m.param⟩ st.bpf }) := by
        simp only [add_keymap_one]
        rw [if_pos hp, if_pos hn]
      rw [heq]
      exact keymap_one_core resolve m st { st with
        bpf := add_bpf_protocol ⟨m.protocol, m.param⟩ st.bpf } rfl rfl rfl
    · have heq : add_keymap_one resolve st m =
          add_keymap_raws resolve m.raw (add_keymap_scancodes resolve m.scancode st) := by
        simp only [add_keymap_one]
        rw [if_pos hp, if_neg hn]
      rw [heq]
      exact keymap_one_core resolve m st st rfl rfl rfl
  · have heq : add_keymap_one resolve st m =
        add_keymap_raws resolve m.raw (add_keymap_scancodes resolve m.scancode
          { st with ch_proto := st.ch_proto ||| parse_sysfs_protocol m.protocol false }) := by
      simp only [add_keymap_one]
      rw [if_neg hp]
    rw [heq]
    exact keymap_one_core resolve m st { st with
      ch_proto := st.ch_proto ||| parse_sysfs_protocol m.protocol false } rfl rfl rfl

/-- The `add_keymap` fold composes the per-keymap invariant. -/
lemma add_keymap_invariant (resolve : String → Option Int) :
    ∀ (maps : List Keymap) (st : KeytableState),
      (add_keymap resolve maps st).raw_scancode =
        st.raw_scancode + totalResolvedRaws resolve maps ∧
      (add_keymap resolve maps st).rawtable.map Prod.fst =
        (List.range' st.raw_scancode (totalResolvedRaws resolve maps)).reverse ++
          st.rawtable.map Prod.fst ∧
      (∀ p ∈ st.keytable, p ∈ (add_keymap resolve maps st).keytable) ∧
      (∀ p ∈ (add_keymap resolve maps st).rawtable, p ∈ st.rawtable ∨
        ∃ w, resolve p.2 = some w ∧ (p.1, w) ∈ (add_keymap resolve maps st).keytable)
  | [], st => ⟨by simp [add_keymap, totalResolvedRaws],
      by simp [add_keymap, totalResolvedRaws],
      fun p hp => hp, fun p hp => Or.inl hp⟩
  | m :: rest, st => by
    rcases add_keymap_one_invariant resolve m st with ⟨h11, h12, h13, h14⟩
    rcases add_keymap_invariant resolve rest (add_keymap_one resolve st m) with
      ⟨h21, h22, h23, h24⟩
    have hstep : add_keymap resolve (m :: rest) st =
        add_keymap resolve rest (add_keymap_one resolve st m) := rfl
    have htot : totalResolvedRaws resolve (m :: rest) =
        (m.raw.filter fun k => (resolve k).isSome).length +
          totalResolvedRaws resolve rest := by
      simp [totalResolvedRaws]
    refine ⟨?_, ?_, ?_, ?_⟩
    · rw [hstep, h21, h11, htot]
      omega
    · rw [hstep, h22, h11, h12, htot, ← List.append_assoc, ← List.reverse_append]
      have hra : List.range' st.raw_scancode
            ((m.raw.filter fun k => (resolve k).isSome).length) ++
          List.range' (st.raw_scancode +
            ((m.raw.filter fun k => (resolve k).isSome).length))
            (totalResolvedRaws resolve rest) =
          List.range' st.raw_scancode
            ((m.raw.filter fun k => (resolve k).isSome).length +
              totalResolvedRaws resolve rest) := by
        have := List.range'_append st.raw_scancode
          ((m.raw.filter fun k => (resolve k).isSome).length)
          (totalResolvedRaws resolve rest) 1
        rw [Nat.one_mul] at this
        rw [Nat.add_comm (totalResolvedRaws resolve rest)] at this
        exact this
      rw [hra]
    · intro p hp
      rw [hstep]
      exact h23 p (h13 p hp)
    · intro p hp
      rw [hstep] at hp
      rcases h24 p hp with hmem | hres
      · rcases h14 p hmem with hmem' | ⟨w, hw, hk⟩
        · exact Or.inl hmem'
        · exact Or.inr ⟨w, hw, by rw [hstep]; exact h23 _ hk⟩
      · rcases hres with ⟨w, hw, hk⟩
        exact Or.inr ⟨w, hw, by rw [hstep]; exact hk⟩

/-- A concrete keycode resolver: only the symbolic name `KEY_A`
resolves (to keycode 30); anything else fails both the symbolic lookup
and the integer parse. -/
def resolveKEYA : String → Option Int :=
  fun s => if s = "KEY_A" then some 30 else none

/-- C7 (counterexample): a raw entry whose keycode string does not
resolve (`BOGUS`) is reported and skipped — it appears in neither table
and consumes no synthetic scancode, so with raw entries
`[KEY_A, BOGUS, KEY_A]` only two entries are recorded, refuting "every
raw entry is recorded". -/
theorem c7_unresolved_raw_counterexample :
    (add_keymap resolveKEYA [⟨"none", [], [], ["KEY_A", "BOGUS", "KEY_A"]⟩]
        initialKeytableState).rawtable = [(1, "KEY_A"), (0, "KEY_A")] ∧
    (add_keymap resolveKEYA [⟨"none", [], [], ["KEY_A", "BOGUS", "KEY_A"]⟩]
        initialKeytableState).rawtable.length = 2 ∧
    "BOGUS" ∉ ((add_keymap resolveKEYA [⟨"none", [], [], ["KEY_A", "BOGUS", "KEY_A"]⟩]
        initialKeytableState).rawtable.map Prod.snd) := by
  decide

/-- C7 (amended): the process-wide counter starts at 0 and, over any
sequence of keymap merges, advances by exactly one per raw entry whose
keycode resolves; the synthetic scancodes handed out are the
consecutive block starting at the counter — assigned in strictly
increasing order (the rawtable, built by prepending, holds them newest
first) and therefore pairwise unique across the run regardless of how
many keymaps or raw entries are merged; and every rawtable entry added
carries a resolved keycode recorded in the keytable under the same
synthetic scancode (raw entries that fail to resolve are skipped and
consume no scancode). -/
theorem c7_raw_virtualization (resolve : String → Option Int) (maps : List Keymap)
    (st : KeytableState) :
    initialKeytableState.raw_scancode = 0 ∧
    (add_keymap resolve maps st).raw_scancode =
      st.raw_scancode + totalResolvedRaws resolve maps ∧
    (add_keymap resolve maps st).rawtable.map Prod.fst =
      (List.range' st.raw_scancode (totalResolvedRaws resolve maps)).reverse ++
        st.rawtable.map Prod.fst ∧
    (∀ p ∈ (add_keymap resolve maps st).rawtable, p ∈ st.rawtable ∨
      ∃ w, resolve p.2 = some w ∧ (p.1, w) ∈ (add_keymap resolve maps st).keytable) := by
  rcases add_keymap_invariant resolve maps st with ⟨h1, h2, _, h4⟩
  exact ⟨rfl, h1, h2, h4⟩

/-- C7 (witness): merging two keymaps with two and one resolved raw
entries assigns scancodes 0, 1, 2, and the entry carrying scancode 1 is
also bound in the keytable. -/
theorem c7_raw_virtualization_witness :
    (add_keymap resolveKEYA [⟨"none", [], [], ["KEY_A", "KEY_A"]⟩,
        ⟨"none", [], [], ["KEY_A"]⟩] initialKeytableState).rawtable.map Prod.fst =
      (List.range' 0 3).reverse ++ [] ∧
    ∃ w, resolveKEYA "KEY_A" = some w ∧
      ((1 : Nat), w) ∈ (add_keymap resolveKEYA [⟨"none", [], [], ["KEY_A", "KEY_A"]⟩,
        ⟨"none", [], [], ["KEY_A"]⟩] initialKeytableState).keytable := by
  constructor
  · exact (c7_raw_virtualization resolveKEYA [⟨"none", [], [], ["KEY_A", "KEY_A"]⟩,
      ⟨"none", [], [], ["KEY_A"]⟩] initialKeytableState).2.2.1
  · exact ((c7_raw_virtualization resolveKEYA [⟨"none", [], [], ["KEY_A", "KEY_A"]⟩,
      ⟨"none", [], [], ["KEY_A"]⟩] initialKeytableState).2.2.2
        (1, "KEY_A") (by decide)).resolve_left (by decide)

end Keytable
